import Mathlib

/-!
Shallow embedding of the core of the `neuring` UDP benchmarking tool
(a Rust program), together with theorems checking its natural-language
specification against the code.

The embedding follows the source files:
  * `src/stats/aggregator.rs` — the sliding-window stats aggregator;
  * `src/stats/csv_writer.rs` — the CSV stats sink;
  * `src/errors.rs` — the error taxonomy;
  * `src/io_impl/syscall_sendrecv.rs` — the syscall send/receive engine
    (its `send`/`sendmmsg`/`recv` wrappers and the two worker loops);
  * `src/io_impl/iouring_echo.rs` — the io_uring echo engine's per-slot
    state machine and `nb_active_recv` bookkeeping.

Machine integers (`u64`, `usize`) are modelled as `Nat`; every subtraction
performed by the code happens under a guard that makes it non-truncating,
and the only wrap-capable operations (relaxed `fetch_add` on counters)
are modelled as `+` since no claim concerns counter overflow.
Concurrency is sequentialised: an atomics-updating closure becomes a
`Stats → Stats` function, and the io_uring completion flow becomes an
explicit step relation on a ring state.
-/

namespace Neuring

/-- Aggregated statistics for a single step (`Stats` in
src/stats/aggregator.rs).  The four `AtomicU64` counters are modelled as
natural numbers; the `Default` Rust derive corresponds to the all-zero
record. -/
structure Stats where
  tx_packets : Nat
  rx_packets : Nat
  rx_packets_sent_here : Nat
  total_latency_sent_here : Nat
  deriving Repr, DecidableEq

instance : Inhabited Stats := ⟨⟨0, 0, 0, 0⟩⟩

/-- Lock-protected part of the aggregator (`LockedPart` in
src/stats/aggregator.rs): the absolute index of the first stored step and
the `VecDeque` of steps, modelled as a list. -/
structure LockedPart where
  first_step_idx : Nat
  steps_buf : List Stats
  deriving Repr, DecidableEq

/-- Configuration stored by `StatsAggregator::new`
(src/stats/aggregator.rs lines 64-77).  The lock contents and the writer
are modelled separately; this captures the three numeric fields. -/
structure StatsAggregatorCfg where
  step_size : Nat
  max_steps : Nat
  eviction_steps_to_keep : Nat
  deriving Repr, DecidableEq

/-- Embedding of `StatsAggregator::new` (src/stats/aggregator.rs): the
stored `eviction_steps_to_keep` is computed as
`(evict_threshold / step_size + 1) as usize`, where `/` is Rust `u64`
(truncating) division. -/
def statsAggregatorNew (step_size max_steps evict_threshold : Nat) :
    StatsAggregatorCfg :=
  { step_size := step_size
    max_steps := max_steps
    eviction_steps_to_keep := evict_threshold / step_size + 1 }

/-- Embedding of `StatsAggregator::access_step` (src/stats/aggregator.rs
lines 79-94).  The update closure becomes `f : Stats → Stats`.  The result
is `some (new locked part, returned bool)`, or `none` when control reaches
the `unimplemented!("evict based on threshold")` macro, which panics at
runtime (the extend-then-evict branch of the source is not written). -/
def accessStep (step_size : Nat) (lp : LockedPart) (time : Nat)
    (f : Stats → Stats) : Option (LockedPart × Bool) :=
  let step := time / step_size
  if step < lp.first_step_idx then
    some (lp, false)
  else
    let step_buf_idx := step - lp.first_step_idx
    if step_buf_idx ≥ lp.steps_buf.length then
      none
    else
      some ({ lp with
        steps_buf := lp.steps_buf.set step_buf_idx
          (f (lp.steps_buf.getD step_buf_idx default)) }, true)

/-- Embedding of `StatsAggregator::get_step_mut` (src/stats/aggregator.rs
lines 97-109).  The outer `Option` is `none` exactly when control reaches
the `unimplemented!("evict based on threshold")` macro; the inner option
is the function's own `Option<&mut Stats>` return value, with the borrow
replaced by the step's current value. -/
def getStepMut (step_size : Nat) (lp : LockedPart) (time : Nat) :
    Option (Option Stats) :=
  let step := time / step_size
  if step < lp.first_step_idx then
    some none
  else
    let step_buf_idx := step - lp.first_step_idx
    if step_buf_idx ≥ lp.steps_buf.length then
      none
    else
      some (some (lp.steps_buf.getD step_buf_idx default))

/-- Embedding of `LockedPart::evict_first` (src/stats/aggregator.rs lines
113-118): advance `first_step_idx` by `idx` and drain the first `idx`
steps. -/
def evictFirst (lp : LockedPart) (idx : Nat) : LockedPart :=
  { first_step_idx := lp.first_step_idx + idx
    steps_buf := lp.steps_buf.drop idx }

/-! CSV stats sink, from src/stats/csv_writer.rs.  The file is modelled as
the sequence of chunks written to it, in order; the file's byte content is
the concatenation of the chunks. -/

/-- File contents produced by the CSV stats sink, as the ordered list of
strings passed to `write!` (src/stats/csv_writer.rs). -/
structure CsvStatsFile where
  content : List String
  deriving Repr, DecidableEq

/-- Embedding of `CsvStatsFile::new` (src/stats/csv_writer.rs lines
21-28): creates the file and writes the header row
`write!(f, "time,tx_packets\n")`. -/
def csvStatsFileNew : CsvStatsFile :=
  { content := ["time,tx_packets\n"] }

/-- Row written by `CsvStatsFile::write` (src/stats/csv_writer.rs lines
30-44): `write!(self.f, "{},{}\n", time, stat.tx_packets.load(..))`,
with `u64` values printed in decimal. -/
def csvRow (time : Nat) (stat : Stats) : String :=
  toString time ++ "," ++ toString stat.tx_packets ++ "\n"

/-- Embedding of `CsvStatsFile::write`: appends one row to the file (the
flush bookkeeping does not change the byte stream and is omitted). -/
def csvStatsFileWrite (f : CsvStatsFile) (time : Nat) (stat : Stats) :
    CsvStatsFile :=
  { content := f.content ++ [csvRow time stat] }

/-- Expected rows for a list of evicted steps, one row per step in list
order. -/
def csvRowsFor (evictions : List (Nat × Stats)) : List String :=
  evictions.map (fun e => csvRow e.1 e.2)

/-! Error taxonomy, from src/errors.rs.  The `io::Error` payloads are
opaque OS values; the embedding keeps the syscall-name discriminant and
drops the OS error object. -/

/-- Embedding of `enum AppError` (src/errors.rs).  `IoUringFull` is
declared there with three fields:
`IoUringFull(&'static str, usize, usize)`, rendered as
"queue full while pushing {0}({1}) (capacity {2})". -/
inductive AppError where
  | NotImplemented (what : String)
  | IOError (syscall : String)
  | UnableToResolveNetAddr (addr cause : String)
  | PacketSizeTooLarge
  | StatsFileError
  | IoUringError
  | IoUringFull (request_type : String) (index : Nat) (capacity : Nat)
  deriving Repr, DecidableEq

/-! Packet codec.  src/main.rs declares `mod pkt` and the engines call
`crate::pkt::{write_packet, parse_packet}` and use
`pkt::PACKET_HEAD_SIZE`, but the file `src/pkt.rs` is absent from the
provided sources, so the codec is modelled from the specification. -/

/-- Modelled from the spec: the packet header size.  The missing module
`src/pkt.rs` defines `PACKET_HEAD_SIZE`; the spec fixes the header at 16
bytes (`index` and `send_time`, both `u64`). -/
def PACKET_HEAD_SIZE : Nat := 16

/-- Little-endian byte encoding of a value into `n` bytes (least
significant byte first). -/
def u64ToLeBytes : Nat → Nat → List Nat
  | 0, _ => []
  | n + 1, x => x % 256 :: u64ToLeBytes n (x / 256)

/-- Little-endian byte decoding. -/
def leBytesToU64 : List Nat → Nat
  | [] => 0
  | b :: rest => b + 256 * leBytesToU64 rest

/-- Modelled from the spec: the decoded packet header of the missing
module `src/pkt.rs` — a 64-bit `index` and a 64-bit `send_time`. -/
structure PacketHeader where
  index : Nat
  send_time : Nat
  deriving Repr, DecidableEq

/-- Modelled from the spec: the decode failure of `parse_packet` in the
missing module `src/pkt.rs` ("fails with malformed if shorter"). -/
inductive PacketParseError where
  | Malformed
  deriving Repr, DecidableEq

/-- Modelled from the spec: `write_packet(seed, index, send_time, buffer)`
of the missing module `src/pkt.rs`.  Writes the 16-byte header at offset 0
(`index` as `u64` little-endian at 0..8, `send_time` at 8..16) and leaves
the rest of the buffer as the caller wrote it; `seed` currently does not
affect bytes beyond the header. -/
def write_packet (seed index send_time : Nat) (buffer : List Nat) :
    List Nat :=
  u64ToLeBytes 8 index ++ u64ToLeBytes 8 send_time ++
    buffer.drop PACKET_HEAD_SIZE

/-- Modelled from the spec: `parse_packet(seed, buffer)` of the missing
module `src/pkt.rs`.  Returns the decoded header if the buffer length is
at least the header size and fails with "malformed" if shorter; it does
not validate payload. -/
def parse_packet (seed : Nat) (buffer : List Nat) :
    Except PacketParseError PacketHeader :=
  if PACKET_HEAD_SIZE ≤ buffer.length then
    Except.ok
      { index := leBytesToU64 (buffer.take 8)
        send_time := leBytesToU64 ((buffer.drop 8).take 8) }
  else
    Except.error PacketParseError.Malformed

theorem length_u64ToLeBytes (n x : Nat) : (u64ToLeBytes n x).length = n := by
  induction n generalizing x with
  | zero => rfl
  | succ n ih => simp [u64ToLeBytes, ih]

theorem leBytesToU64_u64ToLeBytes (n x : Nat) :
    leBytesToU64 (u64ToLeBytes n x) = x % 256 ^ n := by
  induction n generalizing x with
  | zero => simp [u64ToLeBytes, leBytesToU64, Nat.mod_one]
  | succ n ih =>
    simp only [u64ToLeBytes, leBytesToU64, ih]
    rw [pow_succ, mul_comm (256 ^ n) 256, Nat.mod_mul]

/-! Syscall send/receive engine, from src/io_impl/syscall_sendrecv.rs.
The kernel side of each wrapped syscall is nondeterministic; the wrappers
are modelled as functions of the kernel's outcome (return value and, when
it is -1, the errno), producing the Rust function's `Result`. -/

/-- Linux errno values used by the wrappers (EAGAIN and EWOULDBLOCK are
the same number on Linux). -/
def EAGAIN : Nat := 11

/-- Linux errno value for EWOULDBLOCK. -/
def EWOULDBLOCK : Nat := 11

/-- Linux errno value for EMSGSIZE. -/
def EMSGSIZE : Nat := 90

/-- Embedding of the `send` wrapper (src/io_impl/syscall_sendrecv.rs lines
154-177): on a -1 return, errno EMSGSIZE becomes the dedicated
`PacketSizeTooLarge` error and anything else an `IOError("send", ..)`;
otherwise the whole datagram was accepted and the result is `Ok(())`. -/
def sendCall (ret : Int) (errno : Nat) : Except AppError Unit :=
  if ret = -1 then
    if errno = EMSGSIZE then Except.error AppError.PacketSizeTooLarge
    else Except.error (AppError.IOError "send")
  else Except.ok ()

/-- Embedding of the `recv` wrapper (src/io_impl/syscall_sendrecv.rs lines
202-220, identical to the one in src/io_impl/sys.rs lines 55-73): on a -1
return, errno EAGAIN or EWOULDBLOCK becomes `Ok(0)` and anything else an
`IOError("recv", ..)`; otherwise the byte count is returned. -/
def recvCall (ret : Int) (errno : Nat) : Except AppError Nat :=
  if ret = -1 then
    if errno = EAGAIN ∨ errno = EWOULDBLOCK then Except.ok 0
    else Except.error (AppError.IOError "recv")
  else Except.ok ret.toNat

/-- One iteration of the `batch_size == 1` transmitter loop
(src/io_impl/syscall_sendrecv.rs lines 45-53) as a function of the kernel
outcome of the `send` call.  The loop discards the send result with
`let _ = ...`, then unconditionally bumps `tx_packets` of the current step
by 1 and loops again.  The components are: the discarded send result,
whether the loop keeps running (`true` means it does not abort), and the
`tx_packets` delta applied. -/
def txIterBatch1 (ret : Int) (errno : Nat) :
    Except AppError Unit × Bool × Nat :=
  (sendCall ret errno, true, 1)

/-- One iteration of the `batch_size > 1` transmitter loop
(src/io_impl/syscall_sendrecv.rs lines 61-104) as a function of the result
of the `sendmmsg` wrapper.  The result is discarded with `let _ = ...` and
`tx_packets` of the current step is bumped by `batch_size`
unconditionally; the loop keeps running. -/
def txIterBatchN (sendmmsg_res : Except AppError Unit) (batch_size : Nat) :
    Except AppError Unit × Bool × Nat :=
  (sendmmsg_res, true, batch_size)

/-- Counter updates issued to the stats aggregator, each tagged with the
time passed to `access_step`. -/
inductive StatUpdate where
  | rxPacket (time : Nat)
  | sentHere (time latency : Nat)
  deriving Repr, DecidableEq

/-- Effect of a `StatUpdate` on a step's counters, as performed by the
closures in the receiver loop: `rx_packets.fetch_add(1)` for `rxPacket`;
`rx_packets_sent_here.fetch_add(1)` plus
`total_latency_sent_here.fetch_add(recv_time - send_time)` for
`sentHere`. -/
def StatUpdate.apply : StatUpdate → Stats → Stats
  | .rxPacket _, s => { s with rx_packets := s.rx_packets + 1 }
  | .sentHere _ lat, s =>
      { s with
        rx_packets_sent_here := s.rx_packets_sent_here + 1
        total_latency_sent_here := s.total_latency_sent_here + lat }

/-- Control-flow branch taken by one receiver-loop iteration. -/
inductive RxBranch where
  | recvErr
  | sizeMismatch
  | parseErr
  | clockAnomaly
  | recorded
  deriving Repr, DecidableEq

/-- One iteration of the receiver loop (src/io_impl/syscall_sendrecv.rs
lines 112-145) as a function of the `recv` wrapper's result, the buffer
contents and `recv_time`.  Returns the branch taken and the list of
aggregator updates issued, in program order: a failed recv retries; a
size mismatch, a parse failure, or `send_time > recv_time` discards the
datagram with no updates; otherwise `rx_packets` is bumped in the step of
`recv_time` and `rx_packets_sent_here` / `total_latency_sent_here` in the
step of `send_time`. -/
def rxIter (packet_size seed : Nat) (recv_res : Except AppError Nat)
    (recv_buf : List Nat) (recv_time : Nat) : RxBranch × List StatUpdate :=
  match recv_res with
  | .error _ => (.recvErr, [])
  | .ok recv_size =>
    if recv_size ≠ packet_size then (.sizeMismatch, [])
    else
      match parse_packet seed (recv_buf.take recv_size) with
      | .ok pkt_header =>
        if pkt_header.send_time > recv_time then (.clockAnomaly, [])
        else
          (.recorded,
            [.rxPacket recv_time,
             .sentHere pkt_header.send_time
               (recv_time - pkt_header.send_time)])
      | .error _ => (.parseErr, [])

/-! io_uring echo engine, from src/io_impl/iouring_echo.rs.  Pointers
(`iov_base`, `msg_name`, `msg_control`) are modelled as `Nat` with 0 for
null; the per-slot byte ranges never move, so `iov_base` is determined by
the slot index and is not tracked.  An outstanding kernel submission for a
slot is tracked in the slot's `pending` field; the kernel's guarantee that
each submission produces exactly one completion, consumed exactly once,
appears as the side condition on the `complete` transition. -/

/-- Size of `libc::sockaddr_storage` on Linux, used for `msg_namelen` in
`push_recv`. -/
def SOCKADDR_STORAGE_SIZE : Nat := 128

/-- Embedding of `enum PacketSlotState` (src/io_impl/iouring_echo.rs lines
134-140); `RecvInProgress` is the all-zero state. -/
inductive PacketSlotState where
  | RecvInProgress
  | SendInProgress
  deriving Repr, DecidableEq

/-- Kind of a kernel request submitted for a slot. -/
inductive ReqKind where
  | recv_req
  | send_req
  deriving Repr, DecidableEq

/-- One packet slot of a ring: its entry in `state_buf`, the fields of its
`iovec`/`msghdr` that the engine writes, and whether a submission
referencing it is outstanding and unconsumed (`pending`). -/
structure Slot where
  state : PacketSlotState
  iov_len : Nat
  msg_namelen : Nat
  msg_control : Nat
  msg_controllen : Nat
  msg_flags : Nat
  pending : Option ReqKind
  deriving Repr, DecidableEq

/-- Zeroed slot, as produced by `Box::new_zeroed_slice` in `Socket::new`
(src/io_impl/iouring_echo.rs lines 157-180). -/
instance : Inhabited Slot :=
  ⟨⟨PacketSlotState.RecvInProgress, 0, 0, 0, 0, 0, none⟩⟩

/-- State of one `Socket` (one ring): the slot array and the
`nb_active_recv` counter (src/io_impl/iouring_echo.rs lines 112-132). -/
structure RingState where
  mtu : Nat
  slots : List Slot
  nb_active_recv : Nat
  deriving Repr, DecidableEq

/-- Values actually supplied at the error construction site of
`Socket::push_entry` (src/io_impl/iouring_echo.rs line 232): the source
writes `AppError::IoUringFull(request_type, index)`, passing the request
kind and the slot index and nothing else. -/
structure PushEntrySuppliedArgs where
  request_type : String
  index : Nat
  deriving Repr, DecidableEq

/-- Embedding of `Socket::push_entry` (src/io_impl/iouring_echo.rs lines
217-236) on the submission-queue dimension: pushing succeeds when the
queue is not full, and otherwise returns an error built from exactly the
values the source call site supplies. -/
def pushEntry (sq_len sq_capacity : Nat) (index : Nat)
    (request_type : String) : Except PushEntrySuppliedArgs Nat :=
  if sq_len < sq_capacity then Except.ok (sq_len + 1)
  else Except.error { request_type := request_type, index := index }

/-- Fields written into slot `index`'s `iovec`/`msghdr` by `push_recv`
before the entry is pushed (src/io_impl/iouring_echo.rs lines 255-267):
`iov_len = mtu`, `msg_namelen = sizeof(sockaddr_storage)`, and all control
fields zero. -/
def Slot.recvReady (sl : Slot) (mtu : Nat) : Slot :=
  { sl with
    iov_len := mtu
    msg_namelen := SOCKADDR_STORAGE_SIZE
    msg_control := 0
    msg_controllen := 0
    msg_flags := 0 }

/-- Embedding of `Socket::push_recv` (src/io_impl/iouring_echo.rs lines
254-279) on slot `index`.  The `iovec`/`msghdr` fields are written first;
if the push into the submission queue succeeds (`push_ok`), the slot state
becomes `RecvInProgress`, the submission becomes outstanding and
`nb_active_recv` is incremented; on failure the function returns early
with the buffers written but state and counter untouched. -/
def pushRecv (s : RingState) (index : Nat) (push_ok : Bool) : RingState :=
  let sl := (s.slots.getD index default).recvReady s.mtu
  if push_ok then
    { s with
      slots := s.slots.set index
        { sl with state := PacketSlotState.RecvInProgress
                  pending := some ReqKind.recv_req }
      nb_active_recv := s.nb_active_recv + 1 }
  else
    { s with slots := s.slots.set index sl }

/-- Embedding of `Socket::push_send` (src/io_impl/iouring_echo.rs lines
281-295) on slot `index`: zeroes `msg_control`, `msg_controllen` and
`msg_flags`, then pushes a sendmsg entry; on success the slot state
becomes `SendInProgress` with the submission outstanding, on failure the
function returns early with only the zeroing done. -/
def pushSend (s : RingState) (index : Nat) (push_ok : Bool) : RingState :=
  let sl := { s.slots.getD index default with
    msg_control := 0
    msg_controllen := 0
    msg_flags := 0 }
  if push_ok then
    { s with
      slots := s.slots.set index
        { sl with state := PacketSlotState.SendInProgress
                  pending := some ReqKind.send_req } }
  else
    { s with slots := s.slots.set index sl }

/-- Consumption of a completion entry for slot `index`
(`parse_user_data` removing the request's tag): the outstanding
submission is no longer pending. -/
def consumePending (s : RingState) (index : Nat) : RingState :=
  { s with
    slots := s.slots.set index
      { s.slots.getD index default with pending := none } }

/-- Embedding of the completion handling of `Socket::check_cq`
(src/io_impl/iouring_echo.rs lines 313-343) for one completion entry on
slot `index` with result `result`; `push_ok` is whether the single
submission-queue push the handler performs succeeds.  In state
`RecvInProgress`, `nb_active_recv` is decremented, then a result ≤ 0
resubmits a recv on the slot while a result > 0 stores the result into the
slot's `iov_len` and submits a sendmsg.  In state `SendInProgress`, a recv
is submitted on the slot.  The aggregator updates the handler also issues
do not touch the ring state and are omitted here. -/
def handleCompletion (s : RingState) (index : Nat) (result : Int)
    (push_ok : Bool) : RingState :=
  let s := consumePending s index
  if (s.slots.getD index default).state = PacketSlotState.RecvInProgress then
    let s := { s with nb_active_recv := s.nb_active_recv - 1 }
    if result ≤ 0 then
      pushRecv s index push_ok
    else
      let s := { s with
        slots := s.slots.set index
          { s.slots.getD index default with iov_len := result.toNat } }
      pushSend s index push_ok
  else
    pushRecv s index push_ok

/-- Initial state of a ring of size `K` (`Socket::new`): all slots zeroed,
no submission outstanding, `nb_active_recv = 0`. -/
def ringInit (K mtu : Nat) : RingState :=
  { mtu := mtu, slots := List.replicate K default, nb_active_recv := 0 }

/-- Transitions of one ring.  `post` is the pre-posting loop of
`iouring_echo` (src/io_impl/iouring_echo.rs lines 68-70), which calls
`push_recv` on slots that have no outstanding submission; `complete` is
the handling of one completion entry by `check_cq`, which the kernel
delivers only for a slot with an outstanding, unconsumed submission. -/
inductive RingStep : RingState → RingState → Prop where
  | post (s : RingState) (index : Nat) (push_ok : Bool)
      (hidx : index < s.slots.length)
      (hfree : (s.slots.getD index default).pending = none) :
      RingStep s (pushRecv s index push_ok)
  | complete (s : RingState) (index : Nat) (result : Int) (push_ok : Bool)
      (hidx : index < s.slots.length)
      (hpend : (s.slots.getD index default).pending ≠ none) :
      RingStep s (handleCompletion s index result push_ok)

/-- Reachability of a ring state from the freshly built ring. -/
def RingReachable (K mtu : Nat) (s : RingState) : Prop :=
  Relation.ReflTransGen RingStep (ringInit K mtu) s

/-- A slot currently in `RecvInProgress` whose recv completion has not yet
been consumed — what `nb_active_recv` counts. -/
def isActiveRecv (sl : Slot) : Bool :=
  decide (sl.state = PacketSlotState.RecvInProgress ∧
    sl.pending = some ReqKind.recv_req)

/-- Bookkeeping invariant of one ring: the slot count is fixed,
`nb_active_recv` equals the number of active recv slots, and an
outstanding request's kind matches the slot state. -/
def RingInv (K : Nat) (s : RingState) : Prop :=
  s.slots.length = K ∧
  s.nb_active_recv = s.slots.countP isActiveRecv ∧
  ∀ sl ∈ s.slots,
    (sl.pending = some ReqKind.recv_req →
      sl.state = PacketSlotState.RecvInProgress) ∧
    (sl.pending = some ReqKind.send_req →
      sl.state = PacketSlotState.SendInProgress)

/-! List bookkeeping lemmas used by the ring-invariant proofs. -/

theorem getD_set_self {α : Type} [Inhabited α] (l : List α) (i : Nat)
    (x : α) (h : i < l.length) : (l.set i x).getD i default = x := by
  simp [List.getD_eq_getElem?_getD, List.getElem?_set_self',
    List.getElem?_eq_getElem h]

theorem getD_mem {α : Type} [Inhabited α] (l : List α) (i : Nat)
    (h : i < l.length) : l.getD i default ∈ l := by
  rw [List.getD_eq_getElem?_getD, List.getElem?_eq_getElem h]
  exact List.getElem_mem h

theorem countP_set_balance {α : Type} [Inhabited α] (p : α → Bool)
    (l : List α) (i : Nat) (x : α) (h : i < l.length) :
    (l.set i x).countP p + (if p (l.getD i default) then 1 else 0)
      = l.countP p + (if p x then 1 else 0) := by
  induction l generalizing i with
  | nil => simp at h
  | cons hd tl ih =>
    cases i with
    | zero =>
      simp only [List.set, List.countP_cons, List.getD_cons_zero]
      omega
    | succ i =>
      have h' : i < tl.length := by simpa using h
      have := ih i h'
      simp only [List.set, List.countP_cons, List.getD_cons_succ]
      omega

/-! Preservation of the ring invariant by each operation. -/

/-- Slot written by a successful `push_recv`. -/
def Slot.recvPosted (sl : Slot) (mtu : Nat) : Slot :=
  { sl.recvReady mtu with
    state := PacketSlotState.RecvInProgress
    pending := some ReqKind.recv_req }

/-- Slot written by a successful `push_send`. -/
def Slot.sendPosted (sl : Slot) : Slot :=
  { sl with
    msg_control := 0
    msg_controllen := 0
    msg_flags := 0
    state := PacketSlotState.SendInProgress
    pending := some ReqKind.send_req }

theorem pushRecv_true_eq (s : RingState) (index : Nat) :
    pushRecv s index true = { s with
      slots := s.slots.set index
        ((s.slots.getD index default).recvPosted s.mtu)
      nb_active_recv := s.nb_active_recv + 1 } := rfl

theorem pushRecv_false_eq (s : RingState) (index : Nat) :
    pushRecv s index false = { s with
      slots := s.slots.set index
        ((s.slots.getD index default).recvReady s.mtu) } := rfl

theorem pushSend_true_eq (s : RingState) (index : Nat) :
    pushSend s index true = { s with
      slots := s.slots.set index
        ((s.slots.getD index default).sendPosted) } := rfl

theorem pushSend_false_eq (s : RingState) (index : Nat) :
    pushSend s index false = { s with
      slots := s.slots.set index
        { s.slots.getD index default with
          msg_control := 0
          msg_controllen := 0
          msg_flags := 0 } } := rfl

theorem isActiveRecv_of_pending_none (sl : Slot) (h : sl.pending = none) :
    isActiveRecv sl = false := by
  simp only [isActiveRecv, h]
  simp

theorem ringInv_pushRecv (K : Nat) (s : RingState) (index : Nat)
    (push_ok : Bool) (hidx : index < s.slots.length)
    (hfree : (s.slots.getD index default).pending = none)
    (hinv : RingInv K s) : RingInv K (pushRecv s index push_ok) := by
  obtain ⟨hlen, hcount, hkind⟩ := hinv
  have hpold := isActiveRecv_of_pending_none _ hfree
  cases push_ok with
  | true =>
    rw [pushRecv_true_eq]
    have hb := countP_set_balance isActiveRecv s.slots index
      ((s.slots.getD index default).recvPosted s.mtu) hidx
    have hpnew : isActiveRecv
        ((s.slots.getD index default).recvPosted s.mtu) = true := by
      simp [isActiveRecv, Slot.recvPosted]
    rw [hpold, hpnew] at hb
    simp only [if_true, if_false, Bool.false_eq_true] at hb
    refine ⟨by simpa using hlen, ?_, ?_⟩
    · show s.nb_active_recv + 1
        = List.countP isActiveRecv (s.slots.set index _)
      omega
    · intro sl hsl
      rcases List.mem_or_eq_of_mem_set hsl with h | rfl
      · exact hkind sl h
      · exact ⟨fun _ => rfl, fun h => by simp [Slot.recvPosted] at h⟩
  | false =>
    rw [pushRecv_false_eq]
    have hb := countP_set_balance isActiveRecv s.slots index
      ((s.slots.getD index default).recvReady s.mtu) hidx
    have hpr : isActiveRecv ((s.slots.getD index default).recvReady s.mtu)
        = isActiveRecv (s.slots.getD index default) := rfl
    rw [hpold, hpr, hpold] at hb
    refine ⟨by simpa using hlen, ?_, ?_⟩
    · show s.nb_active_recv
        = List.countP isActiveRecv (s.slots.set index _)
      omega
    · intro sl hsl
      rcases List.mem_or_eq_of_mem_set hsl with h | rfl
      · exact hkind sl h
      · constructor <;> intro h <;>
          · simp only [Slot.recvReady] at h
            rw [hfree] at h
            simp at h

theorem ringInv_pushSend (K : Nat) (s : RingState) (index : Nat)
    (push_ok : Bool) (hidx : index < s.slots.length)
    (hfree : (s.slots.getD index default).pending = none)
    (hinv : RingInv K s) : RingInv K (pushSend s index push_ok) := by
  obtain ⟨hlen, hcount, hkind⟩ := hinv
  have hpold := isActiveRecv_of_pending_none _ hfree
  cases push_ok with
  | true =>
    rw [pushSend_true_eq]
    have hb := countP_set_balance isActiveRecv s.slots index
      ((s.slots.getD index default).sendPosted) hidx
    have hpnew : isActiveRecv ((s.slots.getD index default).sendPosted)
        = false := by
      simp [isActiveRecv, Slot.sendPosted]
    rw [hpold, hpnew] at hb
    refine ⟨by simpa using hlen, ?_, ?_⟩
    · show s.nb_active_recv
        = List.countP isActiveRecv (s.slots.set index _)
      omega
    · intro sl hsl
      rcases List.mem_or_eq_of_mem_set hsl with h | rfl
      · exact hkind sl h
      · exact ⟨fun h => by simp [Slot.sendPosted] at h, fun _ => rfl⟩
  | false =>
    rw [pushSend_false_eq]
    have hb := countP_set_balance isActiveRecv s.slots index
      { s.slots.getD index default with
        msg_control := 0, msg_controllen := 0, msg_flags := 0 } hidx
    have hpr : isActiveRecv { s.slots.getD index default with
        msg_control := 0, msg_controllen := 0, msg_flags := 0 }
        = isActiveRecv (s.slots.getD index default) := rfl
    rw [hpold, hpr, hpold] at hb
    refine ⟨by simpa using hlen, ?_, ?_⟩
    · show s.nb_active_recv
        = List.countP isActiveRecv (s.slots.set index _)
      omega
    · intro sl hsl
      rcases List.mem_or_eq_of_mem_set hsl with h | rfl
      · exact hkind sl h
      · constructor <;> intro h <;>
          · simp only at h
            rw [hfree] at h
            simp at h

theorem consumePending_getD (s : RingState) (index : Nat)
    (hidx : index < s.slots.length) :
    (consumePending s index).slots.getD index default
      = { s.slots.getD index default with pending := none } :=
  getD_set_self s.slots index _ hidx

theorem handleCompletion_recv_le_eq (s : RingState) (index : Nat)
    (result : Int) (push_ok : Bool) (hidx : index < s.slots.length)
    (hst : (s.slots.getD index default).state
      = PacketSlotState.RecvInProgress) (hr : result ≤ 0) :
    handleCompletion s index result push_ok
      = pushRecv { consumePending s index with
          nb_active_recv := s.nb_active_recv - 1 } index push_ok := by
  have hc : ((consumePending s index).slots.getD index default).state
      = PacketSlotState.RecvInProgress := by
    rw [consumePending_getD s index hidx]; exact hst
  simp only [handleCompletion]
  rw [if_pos hc, if_pos hr]
  rfl

theorem handleCompletion_recv_gt_eq (s : RingState) (index : Nat)
    (result : Int) (push_ok : Bool) (hidx : index < s.slots.length)
    (hst : (s.slots.getD index default).state
      = PacketSlotState.RecvInProgress) (hr : ¬ result ≤ 0) :
    handleCompletion s index result push_ok
      = pushSend {
          mtu := s.mtu,
          slots := s.slots.set index
            { s.slots.getD index default with
              pending := none, iov_len := result.toNat },
          nb_active_recv := s.nb_active_recv - 1 } index push_ok := by
  have hc : ((consumePending s index).slots.getD index default).state
      = PacketSlotState.RecvInProgress := by
    rw [consumePending_getD s index hidx]; exact hst
  simp only [handleCompletion]
  rw [if_pos hc, if_neg hr]
  rw [consumePending_getD s index hidx]
  show pushSend {
    mtu := s.mtu,
    slots := (s.slots.set index _).set index _,
    nb_active_recv := s.nb_active_recv - 1 } index push_ok = _
  rw [List.set_set]

theorem handleCompletion_send_eq (s : RingState) (index : Nat)
    (result : Int) (push_ok : Bool) (hidx : index < s.slots.length)
    (hst : ¬ (s.slots.getD index default).state
      = PacketSlotState.RecvInProgress) :
    handleCompletion s index result push_ok
      = pushRecv (consumePending s index) index push_ok := by
  have hc : ¬ ((consumePending s index).slots.getD index default).state
      = PacketSlotState.RecvInProgress := by
    rw [consumePending_getD s index hidx]; exact hst
  simp only [handleCompletion]
  rw [if_neg hc]

theorem ringInv_handleCompletion (K : Nat) (s : RingState) (index : Nat)
    (result : Int) (push_ok : Bool) (hidx : index < s.slots.length)
    (hpend : (s.slots.getD index default).pending ≠ none)
    (hinv : RingInv K s) :
    RingInv K (handleCompletion s index result push_ok) := by
  obtain ⟨hlen, hcount, hkind⟩ := hinv
  have hmem := getD_mem s.slots index hidx
  have hkold := hkind _ hmem
  have hidx1 : index < (consumePending s index).slots.length := by
    show index < (s.slots.set index _).length
    rw [List.length_set]; exact hidx
  have hlenK1 : (consumePending s index).slots.length = K := by
    show (s.slots.set index _).length = K
    rw [List.length_set]; exact hlen
  have hfree1 : ((consumePending s index).slots.getD index default).pending
      = none := by
    rw [consumePending_getD s index hidx]
  have hkind1 : ∀ sl ∈ (consumePending s index).slots,
      (sl.pending = some ReqKind.recv_req →
        sl.state = PacketSlotState.RecvInProgress) ∧
      (sl.pending = some ReqKind.send_req →
        sl.state = PacketSlotState.SendInProgress) := by
    intro sl hsl
    have hsl' : sl ∈ s.slots.set index
        { s.slots.getD index default with pending := none } := hsl
    rcases List.mem_or_eq_of_mem_set hsl' with h | rfl
    · exact hkind sl h
    · exact ⟨fun h => by simp at h, fun h => by simp at h⟩
  have hpcons : isActiveRecv
      { s.slots.getD index default with pending := none } = false :=
    isActiveRecv_of_pending_none _ rfl
  have hb := countP_set_balance isActiveRecv s.slots index
    { s.slots.getD index default with pending := none } hidx
  rw [hpcons] at hb
  have hcc : List.countP isActiveRecv ((consumePending s index).slots)
      = List.countP isActiveRecv (s.slots.set index
        { s.slots.getD index default with pending := none }) := rfl
  by_cases hst : (s.slots.getD index default).state
      = PacketSlotState.RecvInProgress
  · -- a recv completion was consumed
    have hpr : (s.slots.getD index default).pending
        = some ReqKind.recv_req := by
      rcases hp : (s.slots.getD index default).pending with _ | k
      · exact absurd hp hpend
      · cases k
        · rfl
        · have hc2 := hkold.2 hp
          rw [hst] at hc2
          simp at hc2
    have hpold : isActiveRecv (s.slots.getD index default) = true := by
      simp only [isActiveRecv, decide_eq_true_eq]
      exact ⟨hst, hpr⟩
    rw [hpold] at hb
    simp only [if_true, Bool.false_eq_true, if_false] at hb
    by_cases hr : result ≤ 0
    · rw [handleCompletion_recv_le_eq s index result push_ok hidx hst hr]
      refine ringInv_pushRecv K _ index push_ok hidx1 hfree1
        ⟨hlenK1, ?_, hkind1⟩
      show s.nb_active_recv - 1
        = List.countP isActiveRecv ((consumePending s index).slots)
      rw [hcc]
      dsimp only
      omega
    · rw [handleCompletion_recv_gt_eq s index result push_ok hidx hst hr]
      have hb3 := countP_set_balance isActiveRecv s.slots index
        { s.slots.getD index default with
          pending := none, iov_len := result.toNat } hidx
      have hp3 : isActiveRecv { s.slots.getD index default with
          pending := none, iov_len := result.toNat } = false :=
        isActiveRecv_of_pending_none _ rfl
      rw [hpold, hp3] at hb3
      simp only [if_true, Bool.false_eq_true, if_false] at hb3
      refine ringInv_pushSend K _ index push_ok ?_ ?_ ⟨?_, ?_, ?_⟩
      · show index < (s.slots.set index _).length
        rw [List.length_set]; exact hidx
      · show ((s.slots.set index { s.slots.getD index default with
            pending := none, iov_len := result.toNat }).getD index
            default).pending = none
        rw [getD_set_self s.slots index _ hidx]
      · show (s.slots.set index _).length = K
        rw [List.length_set]; exact hlen
      · show s.nb_active_recv - 1
          = List.countP isActiveRecv (s.slots.set index
            { s.slots.getD index default with
              pending := none, iov_len := result.toNat })
        dsimp only
        omega
      · intro sl hsl
        have hsl' : sl ∈ s.slots.set index
            { s.slots.getD index default with
              pending := none, iov_len := result.toNat } := hsl
        rcases List.mem_or_eq_of_mem_set hsl' with h | rfl
        · exact hkind sl h
        · exact ⟨fun h => by simp at h, fun h => by simp at h⟩
  · -- a send completion was consumed
    rw [handleCompletion_send_eq s index result push_ok hidx hst]
    have hpold : isActiveRecv (s.slots.getD index default) = false := by
      simp only [isActiveRecv, decide_eq_false_iff_not]
      intro hand
      exact hst hand.1
    rw [hpold] at hb
    simp only [Bool.false_eq_true, if_false] at hb
    refine ringInv_pushRecv K _ index push_ok hidx1 hfree1
      ⟨hlenK1, ?_, hkind1⟩
    show s.nb_active_recv
      = List.countP isActiveRecv ((consumePending s index).slots)
    rw [hcc]
    dsimp only
    omega

theorem ringInv_init (K mtu : Nat) : RingInv K (ringInit K mtu) := by
  refine ⟨by simp [ringInit], ?_, ?_⟩
  · show 0 = List.countP isActiveRecv (List.replicate K default)
    symm
    rw [List.countP_eq_zero]
    intro a ha
    rw [List.eq_of_mem_replicate ha]
    decide
  · intro sl hsl
    have hd := List.eq_of_mem_replicate hsl
    subst hd
    exact ⟨(fun h => nomatch h), (fun h => nomatch h)⟩

theorem ringInv_reachable (K mtu : Nat) (s : RingState)
    (h : RingReachable K mtu s) : RingInv K s := by
  induction h with
  | refl => exact ringInv_init K mtu
  | tail hsteps hstep ih =>
    cases hstep with
    | post index push_ok hidx hfree =>
      exact ringInv_pushRecv K _ index push_ok hidx hfree ih
    | complete index result push_ok hidx hpend =>
      exact ringInv_handleCompletion K _ index result push_ok hidx hpend ih

/-! Claim theorems. -/

/-- C1: the spec claims that `access_step` on a step past the current
window extends the window, evicts old steps through the writer, applies
the caller's update and returns true, and that `get_step_mut` extends the
window the same way.  In the code both extension paths are
`unimplemented!("evict based on threshold")`, which panics: evaluating the
embedding on a fresh aggregator (`step_size = 1`, empty window) at
`time = 0` reaches the unimplemented branch (`none`) in both functions
instead of extending and accepting. -/
theorem c1_unimplemented_eviction_eval :
    accessStep 1 { first_step_idx := 0, steps_buf := [] } 0
      (fun st => { st with tx_packets := st.tx_packets + 1 }) = none ∧
    getStepMut 1 { first_step_idx := 0, steps_buf := [] } 0 = none :=
  ⟨rfl, rfl⟩

/-- C2 counterexample: the claim says the CSV sink writes the header row
`time,tx_packets,rx_packets,rx_packets_sent_here,total_latency_sent_here`
and rows carrying all four counters.  The code writes the header
`time,tx_packets` only, and a row depends only on the step's time and
`tx_packets`: two steps differing in every other counter produce
identical output. -/
theorem c2_counterexample :
    csvStatsFileNew.content = ["time,tx_packets\n"] ∧
    "time,tx_packets\n"
      ≠ "time,tx_packets,rx_packets,rx_packets_sent_here,total_latency_sent_here\n" ∧
    csvStatsFileWrite csvStatsFileNew 5
        { tx_packets := 3, rx_packets := 0, rx_packets_sent_here := 0,
          total_latency_sent_here := 0 }
      = csvStatsFileWrite csvStatsFileNew 5
        { tx_packets := 3, rx_packets := 7, rx_packets_sent_here := 9,
          total_latency_sent_here := 11 } := by
  refine ⟨rfl, ?_, rfl⟩
  decide

/-- C2 amended: the CSV sink writes the header row `time,tx_packets`
followed by exactly one row per evicted step, each row containing the
step's absolute start time and its `tx_packets` counter, in the order in
which the writer is invoked. -/
theorem c2_amended (evictions : List (Nat × Stats)) :
    (evictions.foldl (fun f e => csvStatsFileWrite f e.1 e.2)
        csvStatsFileNew).content
      = "time,tx_packets\n" :: csvRowsFor evictions := by
  have key : ∀ (l : List (Nat × Stats)) (f : CsvStatsFile),
      (l.foldl (fun f e => csvStatsFileWrite f e.1 e.2) f).content
        = f.content ++ csvRowsFor l := by
    intro l
    induction l with
    | nil => intro f; simp [csvRowsFor]
    | cons e rest ih =>
      intro f
      simp only [List.foldl_cons, ih, csvRowsFor, List.map_cons]
      simp [csvStatsFileWrite]
  simpa [csvStatsFileNew, csvRowsFor] using key evictions csvStatsFileNew

/-- C8: the codec round-trips — parsing a buffer produced by
`write_packet(seed, i, t, buffer)` on any buffer of length at least 16
yields the header `(i, t)` — and `parse_packet` succeeds exactly on
buffers of length at least the 16-byte header size, failing with
"malformed" exactly on shorter ones. -/
theorem c8_codec_roundtrip (seed i t : Nat) (buf : List Nat)
    (hi : i < 2 ^ 64) (ht : t < 2 ^ 64)
    (hb : PACKET_HEAD_SIZE ≤ buf.length) :
    parse_packet seed (write_packet seed i t buf)
      = Except.ok { index := i, send_time := t } ∧
    (∀ b : List Nat, (∃ hd, parse_packet seed b = Except.ok hd)
      ↔ PACKET_HEAD_SIZE ≤ b.length) ∧
    (∀ b : List Nat,
      parse_packet seed b = Except.error PacketParseError.Malformed
        ↔ b.length < PACKET_HEAD_SIZE) := by
  have hlen8i : (u64ToLeBytes 8 i).length = 8 := length_u64ToLeBytes 8 i
  have hlen8t : (u64ToLeBytes 8 t).length = 8 := length_u64ToLeBytes 8 t
  have h256 : (256 : Nat) ^ 8 = 2 ^ 64 := by norm_num
  refine ⟨?_, ?_, ?_⟩
  · show parse_packet seed
      (u64ToLeBytes 8 i ++ u64ToLeBytes 8 t ++ buf.drop PACKET_HEAD_SIZE)
      = _
    rw [List.append_assoc]
    have hL : PACKET_HEAD_SIZE
        ≤ (u64ToLeBytes 8 i
            ++ (u64ToLeBytes 8 t ++ buf.drop PACKET_HEAD_SIZE)).length := by
      have hb' : 16 ≤ buf.length := hb
      simp [hlen8i, hlen8t, PACKET_HEAD_SIZE]
      omega
    simp only [parse_packet]
    rw [if_pos hL, List.take_left' hlen8i, List.drop_left' hlen8i,
        List.take_left' hlen8t, leBytesToU64_u64ToLeBytes,
        leBytesToU64_u64ToLeBytes, h256, Nat.mod_eq_of_lt hi,
        Nat.mod_eq_of_lt ht]
  · intro b
    constructor
    · rintro ⟨hd, hok⟩
      by_contra hlt
      simp only [parse_packet, if_neg hlt] at hok
      exact Except.noConfusion hok
    · intro hle
      exact ⟨{ index := leBytesToU64 (b.take 8),
               send_time := leBytesToU64 ((b.drop 8).take 8) },
        by simp only [parse_packet, if_pos hle]⟩
  · intro b
    constructor
    · intro herr
      by_contra hge
      push_neg at hge
      simp only [parse_packet, if_pos hge] at herr
      exact Except.noConfusion herr
    · intro hlt
      have : ¬ PACKET_HEAD_SIZE ≤ b.length := by omega
      simp only [parse_packet, if_neg this]

/-- C8 witness: the round-trip and the length characterisation evaluated
at seed 7, index 3, send time 5, on a 16-byte buffer. -/
theorem c8_witness :
    parse_packet 7 (write_packet 7 3 5 (List.replicate 16 0))
      = Except.ok { index := 3, send_time := 5 } :=
  (c8_codec_roundtrip 7 3 5 (List.replicate 16 0) (by norm_num)
    (by norm_num) (by decide)).1

/-- C9 counterexample: the claim says `eviction_steps_to_keep` is
`⌈evict_threshold / step_size⌉ + 1`.  With `step_size = 2` and
`evict_threshold = 3`, the ceiling formula gives `⌈3/2⌉ + 1 = 3`, but the
code stores `3 / 2 + 1 = 2` (truncating division). -/
theorem c9_counterexample :
    (statsAggregatorNew 2 10 3).eviction_steps_to_keep = 2 ∧
    (3 + 2 - 1) / 2 + 1 = 3 ∧ (2 : Nat) ≠ 3 := by
  decide

/-- C9 amended: for step_size > 0, `StatsAggregator::new` stores
`eviction_steps_to_keep = ⌊evict_threshold / step_size⌋ + 1` (floor, not
ceiling), characterised order-theoretically: it is the unique `k` with
`(k - 1) * step_size ≤ evict_threshold < k * step_size`, including when
`step_size` does not divide `evict_threshold`. -/
theorem c9_amended (step_size max_steps evict_threshold : Nat)
    (h : 0 < step_size) :
    (statsAggregatorNew step_size max_steps
        evict_threshold).eviction_steps_to_keep
      = evict_threshold / step_size + 1 ∧
    ((statsAggregatorNew step_size max_steps
        evict_threshold).eviction_steps_to_keep - 1) * step_size
      ≤ evict_threshold ∧
    evict_threshold
      < (statsAggregatorNew step_size max_steps
          evict_threshold).eviction_steps_to_keep * step_size := by
  refine ⟨rfl, ?_, ?_⟩
  · show (evict_threshold / step_size + 1 - 1) * step_size
      ≤ evict_threshold
    simpa using Nat.div_mul_le_self evict_threshold step_size
  · show evict_threshold
      < (evict_threshold / step_size + 1) * step_size
    have h1 := Nat.div_add_mod evict_threshold step_size
    have h2 := Nat.mod_lt evict_threshold h
    have h3 : (evict_threshold / step_size + 1) * step_size
        = step_size * (evict_threshold / step_size) + step_size := by ring
    linarith

/-- C9 amended witness: the floor characterisation evaluated at
`step_size = 2`, `max_steps = 10`, `evict_threshold = 3`. -/
theorem c9_amended_witness :
    (statsAggregatorNew 2 10 3).eviction_steps_to_keep = 3 / 2 + 1 ∧
    ((statsAggregatorNew 2 10 3).eviction_steps_to_keep - 1) * 2 ≤ 3 ∧
    3 < (statsAggregatorNew 2 10 3).eviction_steps_to_keep * 2 :=
  c9_amended 2 10 3 (by decide)

/-- C10: when the underlying recv syscall fails with errno EAGAIN or
EWOULDBLOCK, the `recv` wrapper returns `Ok(0)` instead of an error, and
the receiver loop then discards the zero-length result through the
packet-size check (for any positive configured packet size), not through
the recv-error path. -/
theorem c10_would_block_ok_zero (errno packet_size seed recv_time : Nat)
    (recv_buf : List Nat) (he : errno = EAGAIN ∨ errno = EWOULDBLOCK)
    (hp : 0 < packet_size) :
    recvCall (-1) errno = Except.ok 0 ∧
    rxIter packet_size seed (recvCall (-1) errno) recv_buf recv_time
      = (RxBranch.sizeMismatch, []) := by
  have h1 : recvCall (-1) errno = Except.ok 0 := by
    simp [recvCall, he]
  refine ⟨h1, ?_⟩
  rw [h1]
  simp only [rxIter]
  rw [if_pos hp.ne]

/-- C10 witness: the would-block path evaluated at errno 11 (EAGAIN),
packet size 1000. -/
theorem c10_witness :
    recvCall (-1) 11 = Except.ok 0 ∧
    rxIter 1000 7 (recvCall (-1) 11) [] 42
      = (RxBranch.sizeMismatch, []) :=
  c10_would_block_ok_zero 11 1000 7 42 [] (Or.inl rfl) (by decide)

/-- C3: in the receiver loop, a successfully received datagram is
discarded with no counter updates when its length differs from the
configured packet size, when header parsing fails, or when
`send_time > recv_time`; otherwise the loop issues exactly two updates:
`rx_packets + 1` in the step of `recv_time`, and in the step of
`send_time`, `rx_packets_sent_here + 1` together with
`recv_time - send_time` added to `total_latency_sent_here`. -/
theorem c3_receiver_loop_updates (packet_size seed recv_size recv_time : Nat)
    (recv_buf : List Nat) :
    (recv_size ≠ packet_size →
      rxIter packet_size seed (Except.ok recv_size) recv_buf recv_time
        = (RxBranch.sizeMismatch, [])) ∧
    (∀ e, recv_size = packet_size →
      parse_packet seed (recv_buf.take recv_size) = Except.error e →
      rxIter packet_size seed (Except.ok recv_size) recv_buf recv_time
        = (RxBranch.parseErr, [])) ∧
    (∀ hd, recv_size = packet_size →
      parse_packet seed (recv_buf.take recv_size) = Except.ok hd →
      recv_time < hd.send_time →
      rxIter packet_size seed (Except.ok recv_size) recv_buf recv_time
        = (RxBranch.clockAnomaly, [])) ∧
    (∀ hd, recv_size = packet_size →
      parse_packet seed (recv_buf.take recv_size) = Except.ok hd →
      hd.send_time ≤ recv_time →
      rxIter packet_size seed (Except.ok recv_size) recv_buf recv_time
        = (RxBranch.recorded,
          [StatUpdate.rxPacket recv_time,
           StatUpdate.sentHere hd.send_time (recv_time - hd.send_time)]) ∧
      (∀ st : Stats, StatUpdate.apply (StatUpdate.rxPacket recv_time) st
        = { st with rx_packets := st.rx_packets + 1 }) ∧
      (∀ st : Stats, StatUpdate.apply
          (StatUpdate.sentHere hd.send_time (recv_time - hd.send_time)) st
        = { st with
            rx_packets_sent_here := st.rx_packets_sent_here + 1
            total_latency_sent_here :=
              st.total_latency_sent_here + (recv_time - hd.send_time) })) := by
  refine ⟨?_, ?_, ?_, ?_⟩
  · intro h
    simp only [rxIter]
    rw [if_pos h]
  · intro e h1 h2
    subst h1
    simp only [rxIter, h2]
    rw [if_neg (by simp)]
  · intro hd h1 h2 h3
    subst h1
    simp only [rxIter, h2]
    rw [if_neg (by simp), if_pos h3]
  · intro hd h1 h2 h3
    subst h1
    refine ⟨?_, fun st => rfl, fun st => rfl⟩
    simp only [rxIter, h2]
    rw [if_neg (by simp), if_neg (Nat.not_lt.mpr h3)]

/-- C3 witness: a 16-byte all-zero datagram of the configured size parses
to header (0, 0) and is recorded at `recv_time = 10` with latency 10. -/
theorem c3_witness :
    rxIter 16 0 (Except.ok 16) (List.replicate 16 0) 10
      = (RxBranch.recorded,
        [StatUpdate.rxPacket 10, StatUpdate.sentHere 0 10]) :=
  ((c3_receiver_loop_updates 16 0 16 10 (List.replicate 16 0)).2.2.2
    { index := 0, send_time := 0 } rfl rfl (by decide)).1

/-- C4 counterexample: the claim says an EMSGSIZE failure of a
steady-state send is fatal to the transmitter worker.  In the code the
`send` wrapper does classify errno EMSGSIZE as the dedicated
`PacketSizeTooLarge` error, but the loop body discards the result with
`let _ = send(..)`: the iteration still reports that the loop keeps
running (component `true`) and still bumps `tx_packets` by 1, so the
worker does not abort. -/
theorem c4_counterexample :
    sendCall (-1) EMSGSIZE = Except.error AppError.PacketSizeTooLarge ∧
    txIterBatch1 (-1) EMSGSIZE
      = (Except.error AppError.PacketSizeTooLarge, true, 1) :=
  ⟨rfl, rfl⟩

/-- C4 amended: a steady-state `send`/`sendmmsg` failure with errno
EMSGSIZE is surfaced by the wrappers as the dedicated
`PacketSizeTooLarge` error kind, but the transmitter loops discard the
result and keep running, still bumping `tx_packets` by 1 (or by
`batch_size`); the error is not fatal to the worker. -/
theorem c4_amended (errno : Nat) (ret : Int)
    (res : Except AppError Unit) (batch_size : Nat) (h : errno = EMSGSIZE) :
    sendCall (-1) errno = Except.error AppError.PacketSizeTooLarge ∧
    txIterBatch1 ret errno = (sendCall ret errno, true, 1) ∧
    txIterBatchN res batch_size = (res, true, batch_size) := by
  subst h
  exact ⟨rfl, rfl, rfl⟩

/-- C4 amended witness: evaluated at errno 90 (EMSGSIZE) with a batch of
32 packets. -/
theorem c4_amended_witness :
    sendCall (-1) EMSGSIZE = Except.error AppError.PacketSizeTooLarge ∧
    txIterBatch1 (-1) EMSGSIZE = (sendCall (-1) EMSGSIZE, true, 1) ∧
    txIterBatchN (Except.error AppError.PacketSizeTooLarge) 32
      = (Except.error AppError.PacketSizeTooLarge, true, 32) :=
  c4_amended EMSGSIZE (-1) (Except.error AppError.PacketSizeTooLarge) 32 rfl

/-- C6: evaluating the embedded `push_entry` on a full submission queue.
The error value the source constructs carries exactly the request kind
and the slot index — it is the same value whatever the ring capacity —
while the `IoUringFull` variant declared in src/errors.rs (and claimed in
the spec) has a third field for the capacity that does distinguish
capacities.  The source call `AppError::IoUringFull(request_type, index)`
supplies two values for a three-field variant and does not typecheck. -/
theorem c6_push_entry_supplied_values :
    pushEntry 4 4 0 "recv"
      = Except.error { request_type := "recv", index := 0 } ∧
    pushEntry 8 8 0 "recv" = pushEntry 4 4 0 "recv" ∧
    AppError.IoUringFull "recv" 0 4 ≠ AppError.IoUringFull "recv" 0 8 := by
  refine ⟨rfl, rfl, ?_⟩
  intro h
  simp at h

/-- C5: the per-slot state machine of the io_uring echo engine (with the
submission-queue push succeeding): a completion for a slot in
`RecvInProgress` with result ≤ 0 resubmits a recv on the same slot and
leaves it in `RecvInProgress`; with result > 0 it stores the result into
the slot's `iov_len`, zeroes `msg_control`/`msg_controllen`/`msg_flags`,
and submits a sendmsg moving the slot to `SendInProgress`; a completion
for a slot in `SendInProgress` submits a recv on the same slot moving it
back to `RecvInProgress`. -/
theorem c5_slot_state_machine (s : RingState) (index : Nat) (result : Int)
    (hidx : index < s.slots.length) :
    ((s.slots.getD index default).state = PacketSlotState.RecvInProgress →
      result ≤ 0 →
      ((handleCompletion s index result true).slots.getD index
          default).state = PacketSlotState.RecvInProgress ∧
      ((handleCompletion s index result true).slots.getD index
          default).pending = some ReqKind.recv_req) ∧
    ((s.slots.getD index default).state = PacketSlotState.RecvInProgress →
      0 < result →
      ((handleCompletion s index result true).slots.getD index
          default).iov_len = result.toNat ∧
      ((handleCompletion s index result true).slots.getD index
          default).msg_control = 0 ∧
      ((handleCompletion s index result true).slots.getD index
          default).msg_controllen = 0 ∧
      ((handleCompletion s index result true).slots.getD index
          default).msg_flags = 0 ∧
      ((handleCompletion s index result true).slots.getD index
          default).state = PacketSlotState.SendInProgress ∧
      ((handleCompletion s index result true).slots.getD index
          default).pending = some ReqKind.send_req) ∧
    ((s.slots.getD index default).state = PacketSlotState.SendInProgress →
      ((handleCompletion s index result true).slots.getD index
          default).state = PacketSlotState.RecvInProgress ∧
      ((handleCompletion s index result true).slots.getD index
          default).pending = some ReqKind.recv_req) := by
  have hidx1 : index < (consumePending s index).slots.length := by
    show index < (s.slots.set index _).length
    rw [List.length_set]; exact hidx
  refine ⟨?_, ?_, ?_⟩
  · intro hst hr
    rw [handleCompletion_recv_le_eq s index result true hidx hst hr,
        pushRecv_true_eq]
    dsimp only
    rw [getD_set_self _ index _ hidx1]
    exact ⟨rfl, rfl⟩
  · intro hst hr
    have hr' : ¬ result ≤ 0 := by omega
    rw [handleCompletion_recv_gt_eq s index result true hidx hst hr',
        pushSend_true_eq]
    dsimp only
    rw [getD_set_self s.slots index _ hidx, List.set_set,
        getD_set_self s.slots index _ hidx]
    exact ⟨rfl, rfl, rfl, rfl, rfl, rfl⟩
  · intro hst
    have hne : ¬ (s.slots.getD index default).state
        = PacketSlotState.RecvInProgress := by
      rw [hst]
      intro hc
      exact PacketSlotState.noConfusion hc
    rw [handleCompletion_send_eq s index result true hidx hne,
        pushRecv_true_eq]
    dsimp only
    rw [getD_set_self _ index _ hidx1]
    exact ⟨rfl, rfl⟩

/-- Single-slot ring with a recv outstanding, used to evaluate the slot
state machine on a concrete completion. -/
def ringW : RingState :=
  { mtu := 100
    slots := [{ state := PacketSlotState.RecvInProgress, iov_len := 100,
                msg_namelen := 128, msg_control := 0, msg_controllen := 0,
                msg_flags := 0, pending := some ReqKind.recv_req }]
    nb_active_recv := 1 }

/-- C5 witness: a recv completion with result 42 on slot 0 of `ringW`
moves the slot to `SendInProgress` with `iov_len = 42` and zeroed control
fields. -/
theorem c5_witness :
    ((handleCompletion ringW 0 42 true).slots.getD 0 default).iov_len
        = 42 ∧
    ((handleCompletion ringW 0 42 true).slots.getD 0
        default).msg_control = 0 ∧
    ((handleCompletion ringW 0 42 true).slots.getD 0
        default).msg_controllen = 0 ∧
    ((handleCompletion ringW 0 42 true).slots.getD 0
        default).msg_flags = 0 ∧
    ((handleCompletion ringW 0 42 true).slots.getD 0 default).state
        = PacketSlotState.SendInProgress ∧
    ((handleCompletion ringW 0 42 true).slots.getD 0 default).pending
        = some ReqKind.send_req :=
  (c5_slot_state_machine ringW 0 42 (by decide)).2.1 rfl (by decide)

/-- C7: in every ring state reachable from the freshly built ring,
`nb_active_recv` equals the number of slots in `RecvInProgress` whose
recv completion has not yet been consumed (it is incremented exactly by
recv submissions and decremented exactly by consumed recv completions),
and `0 ≤ nb_active_recv ≤ K` where `K` is the ring size. -/
theorem c7_nb_active_recv_invariant (K mtu : Nat) (s : RingState)
    (h : RingReachable K mtu s) :
    s.nb_active_recv = List.countP isActiveRecv s.slots ∧
    s.nb_active_recv ≤ K := by
  obtain ⟨hlen, hcount, -⟩ := ringInv_reachable K mtu s h
  refine ⟨hcount, ?_⟩
  rw [hcount, ← hlen]
  exact List.countP_le_length _

/-- C7 witness: the invariant evaluated on the ring of size 4 after
posting one recv on slot 0. -/
theorem c7_witness :
    (pushRecv (ringInit 4 100) 0 true).nb_active_recv
        = List.countP isActiveRecv (pushRecv (ringInit 4 100) 0 true).slots ∧
    (pushRecv (ringInit 4 100) 0 true).nb_active_recv ≤ 4 :=
  c7_nb_active_recv_invariant 4 100 _
    (Relation.ReflTransGen.single
      (RingStep.post (ringInit 4 100) 0 true (by decide) rfl))

end Neuring
